import Mathlib

/-!
# Verification of the CanLII MCP server's request admission governor

This file is a shallow embedding of the rate limiter and HTTP helper of
`src/index.ts` (functions `resetDailyIfNeeded`, `acquireSlot`, `releaseSlot`,
`canliiRequest`).

The rate limiter is stateful, asynchronous JavaScript.  We embed it as a
labelled transition system whose atomic steps are exactly the synchronous
segments of the source between suspension points (`await`):

* `Action.start i`  — caller `i` enters `acquireSlot` and runs lines 41-47
  (daily reset, quota check, and either enqueue or token take-over) plus, on
  the direct path, lines 48-53 up to the possible `setTimeout` suspension;
* `Action.resume i` — a queued caller resumes after its queue promise is
  resolved and runs lines 48-53 (it does not re-run the quota check);
* `Action.wake i`   — the `setTimeout` spacing delay of caller `i` elapses and
  lines 52-53 run (`lastRequestTime = Date.now(); dailyCount++`);
* `Action.rel i`    — caller `i` runs `releaseSlot` (lines 56-60);
* `Action.tick d`   — the millisecond clock advances by `d`.

Scheduling fidelity: in Node.js a promise resolution queued by
`releaseSlot` (`next.resolve()`) runs as a microtask, and every other event
that can reach `acquireSlot` (a new tool invocation arriving over the
transport, a `setTimeout` timer firing, a `fetch` completing) is rooted in a
macrotask, which only runs once the microtask queue has drained; moreover no
code in the repository calls `acquireSlot` synchronously after `releaseSlot`
inside the same segment (`releaseSlot` appears only in the `finally` of
`canliiRequest`, with nothing after it).  The model therefore gives a caller
in the `resumable` phase (resolved, not yet resumed) priority: `start`,
`wake` and `rel` steps are enabled only while no caller is `resumable`.

`new Date().toDateString()` changes exactly when the local calendar day
changes; we model the day key of a millisecond clock value as its day index.
-/

namespace CanLII

/-- Milliseconds per calendar day. -/
def msPerDay : Nat := 86400000

/-- The quota-epoch key of a clock value: the calendar day it falls in
(the model of `new Date().toDateString()`). -/
def dayKey (t : Nat) : Nat := t / msPerDay

/-- The module-level mutable state of the rate limiter
(`dailyCount`, `dailyResetDate`, `lastRequestTime`, `inFlight`, `queue`
at lines 26-30 of `src/index.ts`).  Queue entries are caller indices. -/
structure Gov where
  dailyCount : Nat
  dailyResetDate : Nat
  lastRequestTime : Nat
  inFlight : Bool
  queue : List Nat
deriving DecidableEq, Repr

/-- Lines 32-38: reset the daily counter when the calendar day changed. -/
def resetDailyIfNeeded (g : Gov) (t : Nat) : Gov :=
  if dayKey t ≠ g.dailyResetDate then
    { g with dailyCount := 0, dailyResetDate := dayKey t }
  else g

/-- The phase of one logical caller (one `acquireSlot` invocation).

* `idle`      — has not called `acquireSlot` yet;
* `waiting`   — suspended on the queue promise (line 46);
* `resumable` — its queue promise was resolved by `releaseSlot`, but the
  continuation (line 48 onwards) has not run yet;
* `sleeping w`— holds the token and is suspended in the `setTimeout` spacing
  delay (line 51), due to wake at clock value `w`;
* `admitted`  — returned from `acquireSlot` holding the token;
* `released`  — has run `releaseSlot`;
* `failed`    — `acquireSlot` threw the quota-exceeded error. -/
inductive Phase where
  | idle
  | waiting
  | resumable
  | sleeping (wake : Nat)
  | admitted
  | released
  | failed
deriving DecidableEq, Repr

/-- A caller currently holds the concurrency token: it is either waiting out
the spacing delay or performing its admitted request. -/
def Phase.isHolder : Phase → Bool
  | .sleeping _ => true
  | .admitted => true
  | _ => false

/-- A caller that has been granted the token by `releaseSlot` but whose
continuation has not yet resumed. -/
def Phase.isResumable : Phase → Bool
  | .resumable => true
  | _ => false

/-- A caller that holds the token or is about to (the release-to-resume
window). -/
def Phase.isHolderOrResumable (p : Phase) : Bool :=
  p.isHolder || p.isResumable

/-- Global system state: governor state, the clock, and the phase of each
caller (caller `i` is entry `i` of `procs`). -/
structure Sys where
  gov : Gov
  clock : Nat
  procs : List Phase
deriving DecidableEq, Repr

/-- Initial state at process start (module initialisation, lines 26-30):
counter 0, reset key of the start day, `lastRequestTime = 0`, token free,
empty queue, `n` callers none of which has started. -/
def Sys.init (n : Nat) (t0 : Nat) : Sys :=
  { gov := { dailyCount := 0, dailyResetDate := dayKey t0, lastRequestTime := 0,
             inFlight := false, queue := [] },
    clock := t0,
    procs := List.replicate n Phase.idle }

/-- The phase of caller `i` (out-of-range callers are `idle`). -/
def Sys.phase (s : Sys) (i : Nat) : Phase :=
  s.procs.getD i Phase.idle

/-- No caller is in the `resumable` phase (the Node.js microtask queue holds
no pending queue-promise continuation). -/
def Sys.noResumable (s : Sys) : Bool :=
  s.procs.all (fun p => !p.isResumable)

/-- Line 50: `Math.max(0, 500 - (now - lastRequestTime))`, computed over the
integers exactly as in the source. -/
def spacingWait (g : Gov) (now : Nat) : Nat :=
  (max 0 (500 - ((now : Int) - (g.lastRequestTime : Int)))).toNat

/-- Lines 48-53 of `acquireSlot`: set `inFlight`, compute the spacing wait;
if positive, suspend in `setTimeout` (phase `sleeping`); otherwise record the
admission timestamp and increment the daily counter. -/
def takeToken (s : Sys) (i : Nat) : Sys :=
  let g := { s.gov with inFlight := true }
  let w := spacingWait g s.clock
  if 0 < w then
    { s with gov := g, procs := s.procs.set i (Phase.sleeping (s.clock + w)) }
  else
    { s with
      gov := { g with lastRequestTime := s.clock, dailyCount := g.dailyCount + 1 },
      procs := s.procs.set i Phase.admitted }

/-- Lines 52-53 as run when the `setTimeout` spacing delay elapses:
`lastRequestTime = Date.now(); dailyCount++`. -/
def finishAdmission (s : Sys) (i : Nat) : Sys :=
  { s with
    gov := { s.gov with lastRequestTime := s.clock,
                        dailyCount := s.gov.dailyCount + 1 },
    procs := s.procs.set i Phase.admitted }

/-- Lines 56-60 (`releaseSlot`): clear `inFlight`, shift the queue, and
return the dequeued waiter (if any) whose promise gets resolved. -/
def releaseSlot (g : Gov) : Gov × Option Nat :=
  match g.queue with
  | [] => ({ g with inFlight := false }, none)
  | j :: rest => ({ g with inFlight := false, queue := rest }, some j)

/-- The atomic steps of the system (see the header comment). -/
inductive Action where
  | start (i : Nat)
  | resume (i : Nat)
  | wake (i : Nat)
  | rel (i : Nat)
  | tick (d : Nat)
deriving DecidableEq, Repr

/-- One atomic step of the system; `none` when the action is not enabled. -/
def stepFn (s : Sys) : Action → Option Sys
  | .start i =>
    if s.noResumable = true ∧ s.phase i = Phase.idle ∧ i < s.procs.length then
      let g := resetDailyIfNeeded s.gov s.clock
      if 5000 ≤ g.dailyCount then
        some { s with gov := g, procs := s.procs.set i Phase.failed }
      else if g.inFlight = true then
        some { s with gov := { g with queue := g.queue ++ [i] },
                      procs := s.procs.set i Phase.waiting }
      else
        some (takeToken { s with gov := g } i)
    else none
  | .resume i =>
    if s.phase i = Phase.resumable then some (takeToken s i) else none
  | .wake i =>
    match s.phase i with
    | .sleeping w =>
      if s.noResumable = true ∧ w ≤ s.clock then some (finishAdmission s i)
      else none
    | _ => none
  | .rel i =>
    if s.noResumable = true ∧ s.phase i = Phase.admitted then
      match releaseSlot s.gov with
      | (g, none) => some { s with gov := g, procs := s.procs.set i Phase.released }
      | (g, some j) =>
        some { s with gov := g,
                      procs := (s.procs.set i Phase.released).set j Phase.resumable }
    else none
  | .tick d => some { s with clock := s.clock + d }

/-- Some enabled action takes `s` to `t`. -/
def StepR (s t : Sys) : Prop :=
  ∃ a, stepFn s a = some t

/-- `t` is reachable from `s` by zero or more steps. -/
def Reachable (s t : Sys) : Prop :=
  Relation.ReflTransGen StepR s t

/-! ## Basic lemmas about the embedding -/

theorem getD_set {α : Type} (l : List α) (i j : Nat) (v d : α) :
    (l.set i v).getD j d = if i = j ∧ i < l.length then v else l.getD j d := by
  rw [List.getD_eq_getD_get?, List.getD_eq_getD_get?, List.get?_eq_getElem?,
    List.get?_eq_getElem?, List.getElem?_set]
  by_cases h : i = j
  · subst h
    by_cases h2 : i < l.length
    · simp [h2]
    · rw [if_pos rfl, if_neg h2, if_neg (by simp [h2]), Option.getD_none,
        List.getElem?_eq_none (by omega), Option.getD_none]
  · simp [h]

theorem phase_lt_length (s : Sys) (j : Nat) (h : s.phase j ≠ Phase.idle) :
    j < s.procs.length := by
  by_contra hc
  exact h (List.getD_eq_default _ _ (by omega))

theorem noResumable_iff (s : Sys) :
    s.noResumable = true ↔ ∀ j, s.phase j ≠ Phase.resumable := by
  unfold Sys.noResumable
  rw [List.all_eq_true]
  constructor
  · intro h j hj
    have hlt : j < s.procs.length := phase_lt_length s j (by rw [hj]; simp)
    have hmem : s.procs[j] ∈ s.procs := List.getElem_mem hlt
    have := h _ hmem
    rw [show s.phase j = s.procs[j] from List.getD_eq_getElem _ _ hlt] at hj
    rw [hj] at this
    simp [Phase.isResumable] at this
  · intro h x hx
    rcases List.mem_iff_getElem.mp hx with ⟨j, hj, rfl⟩
    have := h j
    rw [show s.phase j = s.procs[j] from List.getD_eq_getElem _ _ hj] at this
    cases hp : s.procs[j] <;> simp [Phase.isResumable]
    exact this hp

@[simp] theorem reset_last (g : Gov) (t : Nat) :
    (resetDailyIfNeeded g t).lastRequestTime = g.lastRequestTime := by
  unfold resetDailyIfNeeded; split <;> rfl

@[simp] theorem reset_inFlight (g : Gov) (t : Nat) :
    (resetDailyIfNeeded g t).inFlight = g.inFlight := by
  unfold resetDailyIfNeeded; split <;> rfl

@[simp] theorem reset_queue (g : Gov) (t : Nat) :
    (resetDailyIfNeeded g t).queue = g.queue := by
  unfold resetDailyIfNeeded; split <;> rfl

/-- The spacing wait of line 50 either is zero — exactly when at least 500 ms
have elapsed since the last admission — or pads the clock to exactly
`lastRequestTime + 500`. -/
theorem spacingWait_spec (g : Gov) (now : Nat) (h : g.lastRequestTime ≤ now) :
    (spacingWait g now = 0 ∧ g.lastRequestTime + 500 ≤ now) ∨
    (0 < spacingWait g now ∧ now + spacingWait g now = g.lastRequestTime + 500) := by
  unfold spacingWait
  rcases le_or_lt (g.lastRequestTime + 500) now with h5 | h5
  · left
    refine ⟨?_, h5⟩
    have hx : (500 : Int) - ((now : Int) - (g.lastRequestTime : Int)) ≤ 0 := by omega
    rw [max_eq_left hx]
    rfl
  · right
    have hx : (0 : Int) ≤ 500 - ((now : Int) - (g.lastRequestTime : Int)) := by omega
    rw [max_eq_right hx]
    omega

theorem spacingWait_eq_zero (g : Gov) (now : Nat)
    (h : g.lastRequestTime + 500 ≤ now) : spacingWait g now = 0 := by
  unfold spacingWait
  have hx : (500 : Int) - ((now : Int) - (g.lastRequestTime : Int)) ≤ 0 := by omega
  rw [max_eq_left hx]
  rfl

theorem isResumable_iff (p : Phase) : p.isResumable = true ↔ p = Phase.resumable := by
  cases p <;> simp [Phase.isResumable]

theorem isHolder_iff (p : Phase) :
    p.isHolder = true ↔ p = Phase.admitted ∨ ∃ w, p = Phase.sleeping w := by
  cases p <;> simp [Phase.isHolder]

theorem isHOR_iff (p : Phase) :
    p.isHolderOrResumable = true ↔ p.isHolder = true ∨ p.isResumable = true := by
  simp [Phase.isHolderOrResumable, Bool.or_eq_true]

theorem phase_init (n t0 j : Nat) : (Sys.init n t0).phase j = Phase.idle := by
  unfold Sys.init Sys.phase
  rw [List.getD_eq_getD_get?, List.get?_eq_getElem?]
  exact List.getElem?_getD_replicate_default_eq Phase.idle n j

/-! ## The governor invariant

The inductive invariant of the transition system.  Its fields say:

* the admission timestamp never lies in the future;
* at most one caller holds or is about to hold the token (the `resumable`
  phase covers the window between `releaseSlot` clearing `inFlight` and the
  dequeued waiter resuming);
* `inFlight` is set exactly when a caller holds the token;
* a sleeping caller's wake-up time is at least 500 ms past the last
  admission timestamp;
* the wait queue holds exactly callers in the `waiting` phase, without
  duplicates, and is non-empty only while the token is taken or about to be
  re-taken by a granted waiter. -/
structure Inv (s : Sys) : Prop where
  last_le_clock : s.gov.lastRequestTime ≤ s.clock
  excl : ∀ i j, (s.phase i).isHolderOrResumable = true →
      (s.phase j).isHolderOrResumable = true → i = j
  flag : s.gov.inFlight = true ↔ ∃ i, (s.phase i).isHolder = true
  sleep_wake : ∀ i w, s.phase i = Phase.sleeping w → s.gov.lastRequestTime + 500 ≤ w
  queue_mem : ∀ j ∈ s.gov.queue, s.phase j = Phase.waiting
  queue_nodup : s.gov.queue.Nodup
  queue_flag : s.gov.queue ≠ [] →
      s.gov.inFlight = true ∨ ∃ j, s.phase j = Phase.resumable

theorem inv_init (n t0 : Nat) : Inv (Sys.init n t0) where
  last_le_clock := Nat.zero_le _
  excl := by intro i j hi; rw [phase_init] at hi; simp [Phase.isHolderOrResumable,
    Phase.isHolder, Phase.isResumable] at hi
  flag := by
    constructor
    · intro h; simp [Sys.init] at h
    · rintro ⟨i, hi⟩; rw [phase_init] at hi; simp [Phase.isHolder] at hi
  sleep_wake := by intro i w hi; rw [phase_init] at hi; exact absurd hi (by simp)
  queue_mem := by intro j hj; simp [Sys.init] at hj
  queue_nodup := by simp [Sys.init]
  queue_flag := by intro h; simp [Sys.init] at h

theorem takeToken_eq (s : Sys) (i : Nat) :
    takeToken s i =
      if 0 < spacingWait s.gov s.clock then
        { s with gov := { s.gov with inFlight := true },
                 procs := s.procs.set i
                   (Phase.sleeping (s.clock + spacingWait s.gov s.clock)) }
      else
        { s with
          gov := { s.gov with
                   inFlight := true,
                   lastRequestTime := s.clock,
                   dailyCount := s.gov.dailyCount + 1 },
          procs := s.procs.set i Phase.admitted } := rfl

theorem inv_takeToken (s : Sys) (i : Nat)
    (hlast : s.gov.lastRequestTime ≤ s.clock)
    (hlen : i < s.procs.length)
    (hHR : ∀ j, (s.phase j).isHolderOrResumable = true → j = i)
    (hqm : ∀ j ∈ s.gov.queue, s.phase j = Phase.waiting)
    (hnd : s.gov.queue.Nodup)
    (hiw : s.phase i ≠ Phase.waiting) :
    Inv (takeToken s i) := by
  have hnotin : i ∉ s.gov.queue := fun hmem => hiw (hqm i hmem)
  rw [takeToken_eq]
  rcases spacingWait_spec s.gov s.clock hlast with ⟨h0, hge⟩ | ⟨hpos, heq⟩
  · rw [if_neg (by omega)]
    refine ⟨le_refl _, ?_, ?_, ?_, ?_, hnd, ?_⟩
    · intro j k hj hk
      simp only [Sys.phase, getD_set] at hj hk
      split at hj
      · split at hk
        · omega
        · exact absurd (hHR k hk) (by tauto)
      · exact absurd (hHR j hj) (by tauto)
    · constructor
      · intro _
        exact ⟨i, by simp [Sys.phase, getD_set, hlen, Phase.isHolder]⟩
      · intro _; rfl
    · intro j w hj
      simp only [Sys.phase, getD_set] at hj
      split at hj
      · exact absurd hj (by simp)
      · have : j = i := hHR j (by rw [isHOR_iff, isHolder_iff]; left; right; exact ⟨w, hj⟩)
        tauto
    · intro j hj
      have hji : j ≠ i := fun he => hnotin (he ▸ hj)
      simp only [Sys.phase, getD_set]
      rw [if_neg (by tauto)]
      exact hqm j hj
    · intro _; left; rfl
  · rw [if_pos hpos]
    refine ⟨hlast, ?_, ?_, ?_, ?_, hnd, ?_⟩
    · intro j k hj hk
      simp only [Sys.phase, getD_set] at hj hk
      split at hj
      · split at hk
        · omega
        · exact absurd (hHR k hk) (by tauto)
      · exact absurd (hHR j hj) (by tauto)
    · constructor
      · intro _
        exact ⟨i, by simp [Sys.phase, getD_set, hlen, Phase.isHolder]⟩
      · intro _; rfl
    · intro j w hj
      simp only [Sys.phase, getD_set] at hj
      split at hj
      · injection hj with hw
        show s.gov.lastRequestTime + 500 ≤ w
        omega
      · have : j = i := hHR j (by rw [isHOR_iff, isHolder_iff]; left; right; exact ⟨w, hj⟩)
        tauto
    · intro j hj
      have hji : j ≠ i := fun he => hnotin (he ▸ hj)
      simp only [Sys.phase, getD_set]
      rw [if_neg (by tauto)]
      exact hqm j hj
    · intro _; left; rfl

theorem inv_finishAdmission (s : Sys) (i w : Nat)
    (hph : s.phase i = Phase.sleeping w)
    (hInv : Inv s) :
    Inv (finishAdmission s i) := by
  have hlen : i < s.procs.length := phase_lt_length s i (by rw [hph]; simp)
  have hiHR : (s.phase i).isHolderOrResumable = true := by
    rw [isHOR_iff, isHolder_iff, hph]; tauto
  unfold finishAdmission
  refine ⟨le_refl _, ?_, ?_, ?_, ?_, hInv.queue_nodup, ?_⟩
  · intro j k hj hk
    simp only [Sys.phase, getD_set] at hj hk
    split at hj
    · split at hk
      · omega
      · have := hInv.excl k i hk hiHR; tauto
    · have := hInv.excl j i hj hiHR; tauto
  · constructor
    · intro _
      exact ⟨i, by simp [Sys.phase, getD_set, hlen, Phase.isHolder]⟩
    · intro _
      exact hInv.flag.mpr ⟨i, by rw [hph]; simp [Phase.isHolder]⟩
  · intro j w2 hj
    simp only [Sys.phase, getD_set] at hj
    split at hj
    · exact absurd hj (by simp)
    · have hjHR : (s.phase j).isHolderOrResumable = true := by
        rw [isHOR_iff, isHolder_iff]; left; right; exact ⟨w2, hj⟩
      have := hInv.excl j i hjHR hiHR; tauto
  · intro j hj
    have hji : j ≠ i := by
      intro he
      have := hInv.queue_mem j hj
      rw [he, hph] at this
      exact absurd this (by simp)
    simp only [Sys.phase, getD_set]
    rw [if_neg (by tauto)]
    exact hInv.queue_mem j hj
  · intro _
    left
    exact hInv.flag.mpr ⟨i, by rw [hph]; simp [Phase.isHolder]⟩

theorem inv_rel_empty (s : Sys) (i : Nat)
    (hph : s.phase i = Phase.admitted)
    (hq : s.gov.queue = [])
    (hInv : Inv s) :
    Inv { s with gov := { s.gov with inFlight := false },
                 procs := s.procs.set i Phase.released } := by
  have hiHR : (s.phase i).isHolderOrResumable = true := by
    rw [isHOR_iff, isHolder_iff, hph]; tauto
  have hnoHR : ∀ k,
      ((s.procs.set i Phase.released).getD k Phase.idle).isHolderOrResumable = true →
      False := by
    intro k hk
    rw [getD_set] at hk
    split at hk
    · exact absurd hk (by simp [Phase.isHolderOrResumable, Phase.isHolder, Phase.isResumable])
    · have hki : k = i := hInv.excl k i hk hiHR
      have hilen : i < s.procs.length := phase_lt_length s i (by rw [hph]; simp)
      tauto
  refine ⟨hInv.last_le_clock, ?_, ?_, ?_, ?_, ?_, ?_⟩
  · intro j k hj hk
    exact absurd hj (hnoHR j)
  · constructor
    · intro hx; exact absurd hx (by simp)
    · rintro ⟨k, hk⟩
      exact absurd (hnoHR k (by rw [isHOR_iff]; left; exact hk)) (fun hx => hx)
  · intro j w hj
    refine absurd (hnoHR j ?_) (fun hx => hx)
    have hj2 : (s.procs.set i Phase.released).getD j Phase.idle = Phase.sleeping w := hj
    rw [isHOR_iff, isHolder_iff]
    left; right; exact ⟨w, hj2⟩
  · intro j hj
    have hj2 : j ∈ s.gov.queue := hj
    rw [hq] at hj2
    exact absurd hj2 (by simp)
  · show s.gov.queue.Nodup
    exact hInv.queue_nodup
  · intro hne
    have hne2 : s.gov.queue ≠ [] := hne
    exact absurd hq hne2

theorem inv_rel_grant (s : Sys) (i j : Nat) (rest : List Nat)
    (hph : s.phase i = Phase.admitted)
    (hq : s.gov.queue = j :: rest)
    (hInv : Inv s) :
    Inv { s with gov := { s.gov with inFlight := false, queue := rest },
                 procs := (s.procs.set i Phase.released).set j Phase.resumable } := by
  have hjw : s.phase j = Phase.waiting :=
    hInv.queue_mem j (by rw [hq]; exact List.mem_cons_self j rest)
  have hij : i ≠ j := fun he => by rw [he, hjw] at hph; cases hph
  have hjlen : j < s.procs.length := phase_lt_length s j (by rw [hjw]; simp)
  have hilen : i < s.procs.length := phase_lt_length s i (by rw [hph]; simp)
  have hiHR : (s.phase i).isHolderOrResumable = true := by
    rw [isHOR_iff, isHolder_iff, hph]; tauto
  have hjnotin : j ∉ rest := by
    have := hInv.queue_nodup
    rw [hq, List.nodup_cons] at this
    exact this.1
  have hrestw : ∀ k ∈ rest, s.phase k = Phase.waiting := by
    intro k hk
    exact hInv.queue_mem k (by rw [hq]; exact List.mem_cons_of_mem j hk)
  have hphase : ∀ k, ((s.procs.set i Phase.released).set j Phase.resumable).getD k Phase.idle =
      if j = k then Phase.resumable
      else if i = k then Phase.released else s.phase k := by
    intro k
    rw [getD_set, getD_set, List.length_set]
    by_cases h1 : j = k
    · rw [if_pos ⟨h1, hjlen⟩, if_pos h1]
    · rw [if_neg (by tauto), if_neg h1]
      by_cases h2 : i = k
      · rw [if_pos ⟨h2, hilen⟩, if_pos h2]
      · rw [if_neg (by tauto), if_neg h2]
        rfl
  have honlyj : ∀ k,
      (((s.procs.set i Phase.released).set j Phase.resumable).getD k
        Phase.idle).isHolderOrResumable = true → k = j := by
    intro k hk
    rw [hphase] at hk
    split at hk
    · omega
    · split at hk
      · exact absurd hk (by simp [Phase.isHolderOrResumable, Phase.isHolder, Phase.isResumable])
      · have := hInv.excl k i hk hiHR
        tauto
  refine ⟨hInv.last_le_clock, ?_, ?_, ?_, ?_, ?_, ?_⟩
  · intro k l hk hl
    rw [honlyj k hk, honlyj l hl]
  · constructor
    · intro hx; exact absurd hx (by simp)
    · rintro ⟨k, hk⟩
      have hkj := honlyj k (by rw [isHOR_iff]; left; exact hk)
      have hk2 : ((s.procs.set i Phase.released).set j Phase.resumable).getD k
        Phase.idle = Phase.resumable := by rw [hkj, hphase, if_pos rfl]
      have hk3 : (((s.procs.set i Phase.released).set j Phase.resumable).getD k
        Phase.idle).isHolder = true := hk
      rw [hk2] at hk3
      exact absurd hk3 (by simp [Phase.isHolder])
  · intro k w hk
    have hkj := honlyj k (by rw [isHOR_iff, isHolder_iff]; left; right; exact ⟨w, hk⟩)
    have hk2 : ((s.procs.set i Phase.released).set j Phase.resumable).getD k
      Phase.idle = Phase.sleeping w := hk
    rw [hkj, hphase, if_pos rfl] at hk2
    cases hk2
  · intro k hk
    have hk2 : k ∈ rest := hk
    have hne1 : ¬ j = k := fun he => hjnotin (by rw [he]; exact hk2)
    have hne2 : ¬ i = k := by
      intro he
      have hw := hrestw k hk2
      rw [← he, hph] at hw
      cases hw
    show ((s.procs.set i Phase.released).set j Phase.resumable).getD k Phase.idle
      = Phase.waiting
    rw [hphase, if_neg hne1, if_neg hne2]
    exact hrestw k hk2
  · show rest.Nodup
    have := hInv.queue_nodup
    rw [hq, List.nodup_cons] at this
    exact this.2
  · intro _
    right
    refine ⟨j, ?_⟩
    show ((s.procs.set i Phase.released).set j Phase.resumable).getD j Phase.idle
      = Phase.resumable
    rw [hphase, if_pos rfl]

theorem inv_enqueue (s : Sys) (i : Nat)
    (hidle : s.phase i = Phase.idle)
    (hlen : i < s.procs.length)
    (hfl : s.gov.inFlight = true)
    (hInv : Inv s) :
    Inv { s with gov := { resetDailyIfNeeded s.gov s.clock with
                          queue := (resetDailyIfNeeded s.gov s.clock).queue ++ [i] },
                 procs := s.procs.set i Phase.waiting } := by
  have hinotin : i ∉ s.gov.queue := fun hmem => by
    rw [hInv.queue_mem i hmem] at hidle; cases hidle
  have hphase : ∀ k, (s.procs.set i Phase.waiting).getD k Phase.idle =
      if i = k then Phase.waiting else s.phase k := by
    intro k
    rw [getD_set]
    by_cases h1 : i = k
    · rw [if_pos ⟨h1, hlen⟩, if_pos h1]
    · rw [if_neg (by tauto), if_neg h1]
      rfl
  refine ⟨?_, ?_, ?_, ?_, ?_, ?_, ?_⟩
  · show (resetDailyIfNeeded s.gov s.clock).lastRequestTime ≤ s.clock
    rw [reset_last]
    exact hInv.last_le_clock
  · intro k l hk hl
    have hk2 : ((s.procs.set i Phase.waiting).getD k Phase.idle).isHolderOrResumable
      = true := hk
    have hl2 : ((s.procs.set i Phase.waiting).getD l Phase.idle).isHolderOrResumable
      = true := hl
    rw [hphase] at hk2 hl2
    split at hk2
    · exact absurd hk2 (by simp [Phase.isHolderOrResumable, Phase.isHolder, Phase.isResumable])
    · split at hl2
      · exact absurd hl2 (by simp [Phase.isHolderOrResumable, Phase.isHolder, Phase.isResumable])
      · exact hInv.excl k l hk2 hl2
  · constructor
    · intro _
      rcases hInv.flag.mp hfl with ⟨k, hk⟩
      refine ⟨k, ?_⟩
      show ((s.procs.set i Phase.waiting).getD k Phase.idle).isHolder = true
      rw [hphase, if_neg (fun he => by
        rw [← he, hidle] at hk; simp [Phase.isHolder] at hk)]
      exact hk
    · intro _
      show (resetDailyIfNeeded s.gov s.clock).inFlight = true
      rw [reset_inFlight]
      exact hfl
  · intro k w hk
    have hk2 : (s.procs.set i Phase.waiting).getD k Phase.idle = Phase.sleeping w := hk
    rw [hphase] at hk2
    split at hk2
    · cases hk2
    · show (resetDailyIfNeeded s.gov s.clock).lastRequestTime + 500 ≤ w
      rw [reset_last]
      exact hInv.sleep_wake k w hk2
  · intro k hk
    have hk2 : k ∈ (resetDailyIfNeeded s.gov s.clock).queue ++ [i] := hk
    rw [reset_queue] at hk2
    show (s.procs.set i Phase.waiting).getD k Phase.idle = Phase.waiting
    rw [hphase]
    rcases List.mem_append.mp hk2 with hmem | hmem
    · rw [if_neg (fun he => hinotin (by rw [he]; exact hmem))]
      exact hInv.queue_mem k hmem
    · rw [List.mem_singleton] at hmem
      rw [if_pos hmem.symm]
  · show ((resetDailyIfNeeded s.gov s.clock).queue ++ [i]).Nodup
    rw [reset_queue]
    refine List.Nodup.append hInv.queue_nodup (List.nodup_singleton i) ?_
    intro a ha hb
    rw [List.mem_singleton] at hb
    exact hinotin (by rw [← hb]; exact ha)
  · intro _
    left
    show (resetDailyIfNeeded s.gov s.clock).inFlight = true
    rw [reset_inFlight]
    exact hfl

theorem inv_fail (s : Sys) (i : Nat)
    (hidle : s.phase i = Phase.idle)
    (hnr : s.noResumable = true)
    (hInv : Inv s) :
    Inv { s with gov := resetDailyIfNeeded s.gov s.clock,
                 procs := s.procs.set i Phase.failed } := by
  have hinotin : i ∉ s.gov.queue := fun hmem => by
    rw [hInv.queue_mem i hmem] at hidle; cases hidle
  have hphase : ∀ k, (s.procs.set i Phase.failed).getD k Phase.idle =
      if i = k ∧ i < s.procs.length then Phase.failed else s.phase k := by
    intro k
    rw [getD_set]
    rfl
  refine ⟨?_, ?_, ?_, ?_, ?_, ?_, ?_⟩
  · show (resetDailyIfNeeded s.gov s.clock).lastRequestTime ≤ s.clock
    rw [reset_last]
    exact hInv.last_le_clock
  · intro k l hk hl
    have hk2 : ((s.procs.set i Phase.failed).getD k Phase.idle).isHolderOrResumable
      = true := hk
    have hl2 : ((s.procs.set i Phase.failed).getD l Phase.idle).isHolderOrResumable
      = true := hl
    rw [hphase] at hk2 hl2
    split at hk2
    · exact absurd hk2 (by simp [Phase.isHolderOrResumable, Phase.isHolder, Phase.isResumable])
    · split at hl2
      · exact absurd hl2 (by simp [Phase.isHolderOrResumable, Phase.isHolder, Phase.isResumable])
      · exact hInv.excl k l hk2 hl2
  · constructor
    · intro hflx
      have hfl2 : s.gov.inFlight = true := by
        have hfl3 : (resetDailyIfNeeded s.gov s.clock).inFlight = true := hflx
        rw [reset_inFlight] at hfl3
        exact hfl3
      rcases hInv.flag.mp hfl2 with ⟨k, hk⟩
      refine ⟨k, ?_⟩
      show ((s.procs.set i Phase.failed).getD k Phase.idle).isHolder = true
      rw [hphase, if_neg (fun he => by
        rw [← he.1, hidle] at hk; simp [Phase.isHolder] at hk)]
      exact hk
    · rintro ⟨k, hk⟩
      have hk2 : ((s.procs.set i Phase.failed).getD k Phase.idle).isHolder = true := hk
      rw [hphase] at hk2
      split at hk2
      · cases hk2
      · show (resetDailyIfNeeded s.gov s.clock).inFlight = true
        rw [reset_inFlight]
        exact hInv.flag.mpr ⟨k, hk2⟩
  · intro k w hk
    have hk2 : (s.procs.set i Phase.failed).getD k Phase.idle = Phase.sleeping w := hk
    rw [hphase] at hk2
    split at hk2
    · cases hk2
    · show (resetDailyIfNeeded s.gov s.clock).lastRequestTime + 500 ≤ w
      rw [reset_last]
      exact hInv.sleep_wake k w hk2
  · intro k hk
    have hk2 : k ∈ (resetDailyIfNeeded s.gov s.clock).queue := hk
    rw [reset_queue] at hk2
    show (s.procs.set i Phase.failed).getD k Phase.idle = Phase.waiting
    rw [hphase, if_neg (fun he => hinotin (by rw [he.1]; exact hk2))]
    exact hInv.queue_mem k hk2
  · show (resetDailyIfNeeded s.gov s.clock).queue.Nodup
    rw [reset_queue]
    exact hInv.queue_nodup
  · intro hne
    have hne2 : s.gov.queue ≠ [] := by
      intro he
      apply hne
      show (resetDailyIfNeeded s.gov s.clock).queue = []
      rw [reset_queue]
      exact he
    rcases hInv.queue_flag hne2 with hfl | ⟨k, hk⟩
    · left
      show (resetDailyIfNeeded s.gov s.clock).inFlight = true
      rw [reset_inFlight]
      exact hfl
    · exact absurd hk ((noResumable_iff s).mp hnr k)

theorem inv_tick (s : Sys) (d : Nat) (hInv : Inv s) :
    Inv { s with clock := s.clock + d } := by
  refine ⟨?_, hInv.excl, hInv.flag, hInv.sleep_wake, hInv.queue_mem,
    hInv.queue_nodup, hInv.queue_flag⟩
  show s.gov.lastRequestTime ≤ s.clock + d
  exact Nat.le_trans hInv.last_le_clock (Nat.le_add_right _ _)

/-- The invariant is preserved by every enabled step. -/
theorem inv_step (s t : Sys) (a : Action) (hInv : Inv s) (h : stepFn s a = some t) :
    Inv t := by
  cases a with
  | start i =>
    simp only [stepFn] at h
    split at h
    case isTrue hc =>
      obtain ⟨hnr, hidle, hlen⟩ := hc
      split at h
      case isTrue hq =>
        simp only [Option.some.injEq] at h
        subst h
        exact inv_fail s i hidle hnr hInv
      case isFalse hq =>
        split at h
        case isTrue hf =>
          simp only [Option.some.injEq] at h
          subst h
          exact inv_enqueue s i hidle hlen (by rw [← reset_inFlight s.gov s.clock]; exact hf) hInv
        case isFalse hf =>
          simp only [Option.some.injEq] at h
          subst h
          apply inv_takeToken
          · show (resetDailyIfNeeded s.gov s.clock).lastRequestTime ≤ s.clock
            rw [reset_last]
            exact hInv.last_le_clock
          · exact hlen
          · intro j hj
            exfalso
            rw [isHOR_iff] at hj
            rcases hj with hj | hj
            · have hfl : s.gov.inFlight = true := hInv.flag.mpr ⟨j, hj⟩
              rw [reset_inFlight] at hf
              exact hf hfl
            · rw [isResumable_iff] at hj
              exact (noResumable_iff s).mp hnr j hj
          · intro j hj
            have hj2 : j ∈ (resetDailyIfNeeded s.gov s.clock).queue := hj
            rw [reset_queue] at hj2
            exact hInv.queue_mem j hj2
          · show (resetDailyIfNeeded s.gov s.clock).queue.Nodup
            rw [reset_queue]
            exact hInv.queue_nodup
          · have hph2 : ({ s with gov := resetDailyIfNeeded s.gov s.clock } : Sys).phase i
              = Phase.idle := hidle
            rw [hph2]
            simp
    case isFalse => cases h
  | resume i =>
    simp only [stepFn] at h
    split at h
    case isTrue hres =>
      simp only [Option.some.injEq] at h
      subst h
      apply inv_takeToken
      · exact hInv.last_le_clock
      · exact phase_lt_length s i (by rw [hres]; simp)
      · intro j hj
        refine hInv.excl j i hj ?_
        rw [isHOR_iff, isResumable_iff]
        right
        exact hres
      · exact hInv.queue_mem
      · exact hInv.queue_nodup
      · rw [hres]; simp
    case isFalse => cases h
  | wake i =>
    simp only [stepFn] at h
    split at h
    case _ w heq =>
      split at h
      case isTrue hc =>
        simp only [Option.some.injEq] at h
        subst h
        exact inv_finishAdmission s i w heq hInv
      case isFalse => cases h
    case _ => cases h
  | rel i =>
    simp only [stepFn] at h
    split at h
    case isTrue hc =>
      obtain ⟨hnr, hadm⟩ := hc
      rcases hq : s.gov.queue with _ | ⟨j, rest⟩
      · simp only [releaseSlot, hq] at h
        simp only [Option.some.injEq] at h
        subst h
        rw [← hq]
        exact inv_rel_empty s i hadm hq hInv
      · simp only [releaseSlot, hq] at h
        simp only [Option.some.injEq] at h
        subst h
        exact inv_rel_grant s i j rest hadm hq hInv
    case isFalse => cases h
  | tick d =>
    simp only [stepFn, Option.some.injEq] at h
    subst h
    exact inv_tick s d hInv

/-- Every state reachable from an initial state satisfies the invariant. -/
theorem inv_reachable (n t0 : Nat) (s : Sys) (h : Reachable (Sys.init n t0) s) :
    Inv s := by
  induction h with
  | refl => exact inv_init n t0
  | tail hab hbc ih =>
    rcases hbc with ⟨a, ha⟩
    exact inv_step _ _ a ih ha

/-! ## The URL query-parameter model (lines 72-76 of `canliiRequest`)

`URLSearchParams` is modelled as an association list in insertion order.
`URLSearchParams.set` replaces the value of the first entry with the given
key (deleting any further entries with that key) or appends a new entry.
The base URL built from `BASE_URL` and the path carries no query string in
any caller, so the parameter list starts empty. -/

/-- `url.searchParams.set(k, v)`. -/
def setParam (ps : List (String × String)) (k v : String) : List (String × String) :=
  match ps with
  | [] => [(k, v)]
  | (k2, v2) :: rest =>
    if k2 = k then (k, v) :: rest.filter (fun p => p.1 ≠ k)
    else (k2, v2) :: setParam rest k v

/-- `url.searchParams.get(k)`: the value of the first entry with key `k`. -/
def getParam (ps : List (String × String)) (k : String) : Option String :=
  match ps with
  | [] => none
  | (k2, v) :: rest => if k2 = k then some v else getParam rest k

/-- First binding of key `k` in a caller parameter record
(`Object.entries` order); `some none` models an entry whose value is
`undefined`. -/
def findParam (ps : List (String × Option String)) (k : String) : Option (Option String) :=
  match ps with
  | [] => none
  | (k2, v) :: rest => if k2 = k then some v else findParam rest k

/-- Lines 72-76: set `api_key` to the configured key, then set every caller
parameter whose value is neither `undefined` nor the empty string. -/
def buildSearchParams (apiKey : String) (params : List (String × Option String)) :
    List (String × String) :=
  params.foldl
    (fun acc kv =>
      match kv.2 with
      | some v => if v ≠ "" then setParam acc kv.1 v else acc
      | none => acc)
    (setParam [] "api_key" apiKey)

/-! ## The HTTP helper `canliiRequest` (lines 66-86)

The helper is modelled as a function of the outcome of `acquireSlot` (which
either throws the quota error or returns) and of the network call.  A
`NetOutcome.response status body` stands for a completed `fetch`; `body` is
the response text for a non-ok status and the parsed JSON payload (kept
opaque) for an ok status.  `NetOutcome.transportError msg` stands for
`fetch` rejecting.  The trace records the result of the helper together with
how many times `fetch` and `releaseSlot` ran. -/

/-- The outcome of the network call inside `canliiRequest`. -/
inductive NetOutcome where
  | response (status : Nat) (body : String)
  | transportError (msg : String)
deriving DecidableEq, Repr

/-- `Response.ok`: status in the inclusive range 200-299. -/
def statusOk (status : Nat) : Bool :=
  decide (200 ≤ status) && decide (status ≤ 299)

/-- The error message thrown by `acquireSlot` at line 43. -/
def quotaMessage : String := "CanLII daily API limit (5 000 requests) reached"

/-- What one invocation of `canliiRequest` produced. -/
structure CallTrace where
  result : Except String String
  fetches : Nat
  releases : Nat
deriving Repr

/-- Lines 66-86: await `acquireSlot` (a thrown quota error propagates before
the `try` is entered, so neither `fetch` nor `releaseSlot` runs); otherwise
perform the fetch inside `try … finally releaseSlot()`: a non-ok status
throws `CanLII API {status}: {body}`, a transport error propagates, an ok
status returns the payload, and `releaseSlot` runs on every one of those
paths. -/
def canliiRequest (acq : Except String Unit) (net : NetOutcome) : CallTrace :=
  match acq with
  | .error e => { result := .error e, fetches := 0, releases := 0 }
  | .ok _ =>
    match net with
    | .transportError msg => { result := .error msg, fetches := 1, releases := 1 }
    | .response status body =>
      if statusOk status then
        { result := .ok body, fetches := 1, releases := 1 }
      else
        { result := .error ("CanLII API " ++ toString status ++ ": " ++ body),
          fetches := 1, releases := 1 }

/-! ## Lemmas about the query-parameter model -/

theorem getParam_setParam_self (ps : List (String × String)) (k v : String) :
    getParam (setParam ps k v) k = some v := by
  induction ps with
  | nil => simp [setParam, getParam]
  | cons p rest ih =>
    rcases p with ⟨k2, v2⟩
    by_cases h : k2 = k
    · simp [setParam, h, getParam]
    · simp only [setParam, if_neg h, getParam]
      exact ih

theorem getParam_filter_ne (ps : List (String × String)) (k k2 : String)
    (h : k2 ≠ k) :
    getParam (ps.filter (fun p => p.1 ≠ k)) k2 = getParam ps k2 := by
  induction ps with
  | nil => rfl
  | cons p rest ih =>
    rcases p with ⟨k0, v0⟩
    rw [List.filter_cons]
    by_cases h0 : k0 = k
    · have h2 : ¬ k0 = k2 := by
        intro he
        rw [← he] at h
        exact h h0
      rw [if_neg (by simp [h0])]
      rw [ih]
      simp only [getParam]
      rw [if_neg h2]
    · rw [if_pos (by simp [h0])]
      simp only [getParam]
      by_cases h1 : k0 = k2
      · rw [if_pos h1, if_pos h1]
      · rw [if_neg h1, if_neg h1]
        exact ih

theorem getParam_setParam_ne (ps : List (String × String)) (k v k2 : String)
    (h : k2 ≠ k) :
    getParam (setParam ps k v) k2 = getParam ps k2 := by
  induction ps with
  | nil =>
    simp only [setParam, getParam]
    rw [if_neg (Ne.symm h)]
  | cons p rest ih =>
    rcases p with ⟨k0, v0⟩
    by_cases h0 : k0 = k
    · subst h0
      simp only [setParam, if_pos rfl, getParam]
      rw [if_neg (Ne.symm h), if_neg (Ne.symm h)]
      exact getParam_filter_ne rest k0 k2 h
    · simp only [setParam, if_neg h0, getParam]
      by_cases h1 : k0 = k2
      · rw [if_pos h1, if_pos h1]
      · rw [if_neg h1, if_neg h1]
        exact ih

theorem findParam_eq_none (ps : List (String × Option String)) (k : String)
    (h : k ∉ ps.map Prod.fst) :
    findParam ps k = none := by
  induction ps with
  | nil => rfl
  | cons p rest ih =>
    rcases p with ⟨k0, v0⟩
    simp only [List.map, List.mem_cons] at h
    push_neg at h
    simp only [findParam]
    rw [if_neg (fun he => h.1 he.symm)]
    exact ih h.2

/-- The value each key ends up with after the parameter loop of lines 74-76,
for a caller record with distinct keys (JavaScript object entries): the
caller's value if present, defined and non-empty; otherwise whatever the
accumulator already held for that key. -/
theorem getParam_foldl (params : List (String × Option String))
    (acc : List (String × String)) (k : String)
    (hnd : (params.map Prod.fst).Nodup) :
    getParam (params.foldl
      (fun acc kv =>
        match kv.2 with
        | some v => if v ≠ "" then setParam acc kv.1 v else acc
        | none => acc) acc) k =
      match findParam params k with
      | some (some v) => if v ≠ "" then some v else getParam acc k
      | _ => getParam acc k := by
  induction params generalizing acc with
  | nil => rfl
  | cons p rest ih =>
    rcases p with ⟨k0, v0⟩
    simp only [List.map, List.nodup_cons] at hnd
    simp only [List.foldl_cons, findParam]
    by_cases h0 : k0 = k
    · subst h0
      rw [if_pos rfl]
      have hnone : findParam rest k0 = none := findParam_eq_none rest k0 hnd.1
      rw [ih _ hnd.2, hnone]
      cases v0 with
      | none => rfl
      | some v =>
        by_cases hv : v = ""
        · simp [hv]
        · simp only [hv, ne_eq, not_false_eq_true, if_true, if_pos]
          rw [getParam_setParam_self]
    · rw [if_neg h0]
      rw [ih _ hnd.2]
      have hacc : ∀ acc2 : List (String × String),
          getParam (match v0 with
            | some v => if v ≠ "" then setParam acc2 k0 v else acc2
            | none => acc2) k = getParam acc2 k := by
        intro acc2
        cases v0 with
        | none => rfl
        | some v =>
          by_cases hv : v = ""
          · simp [hv]
          · simp only [hv, ne_eq, not_false_eq_true, if_true, if_pos]
            exact getParam_setParam_ne acc2 k0 v k (fun he => h0 he.symm)
      cases hf : findParam rest k with
      | none => exact hacc acc
      | some v1 =>
        cases v1 with
        | none => exact hacc acc
        | some v =>
          by_cases hv : v = ""
          · simp only [hv]
            simp only [ne_eq, not_true_eq_false, if_false, ite_self]
            exact hacc acc
          · simp [hv]

/-! ## Equation lemmas for the individual `stepFn` branches -/

theorem reset_id (g : Gov) (t : Nat) (hday : dayKey t = g.dailyResetDate) :
    resetDailyIfNeeded g t = g := by
  unfold resetDailyIfNeeded
  rw [if_neg (by rw [hday]; simp)]

theorem stepFn_start_direct (s : Sys) (i : Nat)
    (hnr : s.noResumable = true)
    (hph : s.phase i = Phase.idle)
    (hlen : i < s.procs.length)
    (hday : dayKey s.clock = s.gov.dailyResetDate)
    (hcount : s.gov.dailyCount < 5000)
    (hfl : s.gov.inFlight = false)
    (hsp : s.gov.lastRequestTime + 500 ≤ s.clock) :
    stepFn s (Action.start i) =
      some { s with
             gov := { s.gov with
                      inFlight := true,
                      lastRequestTime := s.clock,
                      dailyCount := s.gov.dailyCount + 1 },
             procs := s.procs.set i Phase.admitted } := by
  simp only [stepFn]
  rw [if_pos ⟨hnr, hph, hlen⟩, reset_id s.gov s.clock hday,
    if_neg (by omega), if_neg (by rw [hfl]; simp)]
  have hs : takeToken { s with gov := s.gov } i = takeToken s i := rfl
  rw [hs, takeToken_eq, spacingWait_eq_zero s.gov s.clock hsp]
  rw [if_neg (by norm_num)]

theorem stepFn_start_sleep (s : Sys) (i : Nat)
    (hnr : s.noResumable = true)
    (hph : s.phase i = Phase.idle)
    (hlen : i < s.procs.length)
    (hday : dayKey s.clock = s.gov.dailyResetDate)
    (hcount : s.gov.dailyCount < 5000)
    (hfl : s.gov.inFlight = false)
    (hlast : s.gov.lastRequestTime ≤ s.clock)
    (hsp : s.clock < s.gov.lastRequestTime + 500) :
    stepFn s (Action.start i) =
      some { s with
             gov := { s.gov with inFlight := true },
             procs := s.procs.set i
               (Phase.sleeping (s.gov.lastRequestTime + 500)) } := by
  simp only [stepFn]
  rw [if_pos ⟨hnr, hph, hlen⟩, reset_id s.gov s.clock hday,
    if_neg (by omega), if_neg (by rw [hfl]; simp)]
  have hs : takeToken { s with gov := s.gov } i = takeToken s i := rfl
  rw [hs, takeToken_eq]
  rcases spacingWait_spec s.gov s.clock hlast with ⟨h0, hge⟩ | ⟨hpos, heq⟩
  · omega
  · rw [if_pos hpos]
    have hw : s.clock + spacingWait s.gov s.clock = s.gov.lastRequestTime + 500 := heq
    rw [hw]

theorem stepFn_start_enqueue (s : Sys) (i : Nat)
    (hnr : s.noResumable = true)
    (hph : s.phase i = Phase.idle)
    (hlen : i < s.procs.length)
    (hday : dayKey s.clock = s.gov.dailyResetDate)
    (hcount : s.gov.dailyCount < 5000)
    (hfl : s.gov.inFlight = true) :
    stepFn s (Action.start i) =
      some { s with
             gov := { s.gov with queue := s.gov.queue ++ [i] },
             procs := s.procs.set i Phase.waiting } := by
  simp only [stepFn]
  rw [if_pos ⟨hnr, hph, hlen⟩, reset_id s.gov s.clock hday,
    if_neg (by omega), if_pos hfl]

theorem stepFn_resume_sleep (s : Sys) (i : Nat)
    (hph : s.phase i = Phase.resumable)
    (hlast : s.gov.lastRequestTime ≤ s.clock)
    (hsp : s.clock < s.gov.lastRequestTime + 500) :
    stepFn s (Action.resume i) =
      some { s with
             gov := { s.gov with inFlight := true },
             procs := s.procs.set i
               (Phase.sleeping (s.gov.lastRequestTime + 500)) } := by
  simp only [stepFn]
  rw [if_pos hph, takeToken_eq]
  rcases spacingWait_spec s.gov s.clock hlast with ⟨h0, hge⟩ | ⟨hpos, heq⟩
  · omega
  · rw [if_pos hpos]
    have hw : s.clock + spacingWait s.gov s.clock = s.gov.lastRequestTime + 500 := heq
    rw [hw]

theorem stepFn_wake_eq (s : Sys) (i w : Nat)
    (hph : s.phase i = Phase.sleeping w)
    (hnr : s.noResumable = true)
    (hw : w ≤ s.clock) :
    stepFn s (Action.wake i) = some (finishAdmission s i) := by
  simp only [stepFn]
  rw [hph]
  dsimp only
  rw [if_pos ⟨hnr, hw⟩]

theorem stepFn_rel_empty (s : Sys) (i : Nat)
    (hnr : s.noResumable = true)
    (hph : s.phase i = Phase.admitted)
    (hq : s.gov.queue = []) :
    stepFn s (Action.rel i) =
      some { s with gov := { s.gov with inFlight := false },
                    procs := s.procs.set i Phase.released } := by
  simp only [stepFn]
  rw [if_pos ⟨hnr, hph⟩]
  simp only [releaseSlot, hq]

theorem stepFn_rel_grant (s : Sys) (i j : Nat) (rest : List Nat)
    (hnr : s.noResumable = true)
    (hph : s.phase i = Phase.admitted)
    (hq : s.gov.queue = j :: rest) :
    stepFn s (Action.rel i) =
      some { s with gov := { s.gov with inFlight := false, queue := rest },
                    procs := (s.procs.set i Phase.released).set j Phase.resumable } := by
  simp only [stepFn]
  rw [if_pos ⟨hnr, hph⟩]
  simp only [releaseSlot, hq]

theorem stepFn_tick_eq (s : Sys) (d : Nat) :
    stepFn s (Action.tick d) = some { s with clock := s.clock + d } := rfl

/-! ## Reaching a quota-overshoot state

With the counter at 4999, caller A takes the token but sleeps out the
spacing delay (counter still 4999); caller B passes the quota check
(4999 < 5000) and enqueues; A completes its admission (counter 5000) and
releases, granting B; B is admitted without any re-check of the quota and
drives the counter to 5001.  The lemmas below exhibit such an execution in
full, starting from the initial state: 4999 spaced direct admissions
followed by the overshoot interleaving. -/

theorem allNotRes_append (k : Nat) (L : List Phase)
    (hL : L.all (fun p => !p.isResumable) = true) :
    (List.replicate k Phase.released ++ L).all (fun p => !p.isResumable) = true := by
  rw [List.all_append, hL]
  simp [Phase.isResumable]

theorem getD_repl_append (k : Nat) (L : List Phase) (j : Nat) (d : Phase) :
    (List.replicate k Phase.released ++ L).getD (k + j) d = L.getD j d := by
  rw [List.getD_append_right _ _ _ _ (by simp)]
  simp

theorem set_repl_append (k : Nat) (L : List Phase) (j : Nat) (c : Phase) :
    (List.replicate k Phase.released ++ L).set (k + j) c
      = List.replicate k Phase.released ++ L.set j c := by
  rw [List.set_append_right _ _ (by simp)]
  simp

/-- The state after `k` well-spaced direct admissions that have all been
released, out of 5001 potential callers starting at clock 0. -/
def cyclesState (k : Nat) : Sys :=
  { gov := { dailyCount := k, dailyResetDate := 0, lastRequestTime := 500 * k,
             inFlight := false, queue := [] },
    clock := 500 * k,
    procs := List.replicate k Phase.released ++ List.replicate (5001 - k) Phase.idle }

theorem cyclesState_zero : cyclesState 0 = Sys.init 5001 0 := rfl

theorem cyclesState_step (k : Nat) (hk : k ≤ 4999) :
    Reachable (cyclesState k) (cyclesState (k + 1)) := by
  have h5 : 5001 - k = (5000 - k) + 1 := by omega
  have hday : dayKey (500 * k + 500) = 0 := by
    unfold dayKey msPerDay
    apply Nat.div_eq_of_lt
    have : 500 * k ≤ 500 * 4999 := Nat.mul_le_mul_left 500 hk
    omega
  have st1 : stepFn (cyclesState k) (Action.tick 500) = some
      { cyclesState k with clock := 500 * k + 500 } := rfl
  have hprocs1 : (List.replicate k Phase.released ++
      List.replicate (5001 - k) Phase.idle).set k Phase.admitted
      = List.replicate k Phase.released ++
        (Phase.admitted :: List.replicate (5000 - k) Phase.idle) := by
    rw [h5, List.replicate_succ]
    have h0 := set_repl_append k
      (Phase.idle :: List.replicate (5000 - k) Phase.idle) 0 Phase.admitted
    rw [Nat.add_zero] at h0
    rw [h0]
    rfl
  have hgetd1 : (List.replicate k Phase.released ++
      List.replicate (5001 - k) Phase.idle).getD k Phase.idle = Phase.idle := by
    have h0 := getD_repl_append k
      (List.replicate (5001 - k) Phase.idle) 0 Phase.idle
    rw [Nat.add_zero] at h0
    rw [h0, h5, List.replicate_succ]
    rfl
  have st2 : stepFn { cyclesState k with clock := 500 * k + 500 } (Action.start k)
      = some
      { gov := { dailyCount := k + 1, dailyResetDate := 0,
                 lastRequestTime := 500 * k + 500, inFlight := true, queue := [] },
        clock := 500 * k + 500,
        procs := List.replicate k Phase.released ++
          (Phase.admitted :: List.replicate (5000 - k) Phase.idle) } := by
    rw [stepFn_start_direct _ k ?_ ?_ ?_ ?_ ?_ ?_ ?_]
    · simp only [cyclesState]
      rw [hprocs1]
    · show (List.replicate k Phase.released ++
        List.replicate (5001 - k) Phase.idle).all (fun p => !p.isResumable) = true
      exact allNotRes_append k _ (by simp [Phase.isResumable])
    · exact hgetd1
    · show k < (List.replicate k Phase.released ++
        List.replicate (5001 - k) Phase.idle).length
      simp
      omega
    · exact hday
    · show k < 5000
      omega
    · rfl
    · show 500 * k + 500 ≤ 500 * k + 500
      exact le_refl _
  have hprocs2 : (List.replicate k Phase.released ++
      (Phase.admitted :: List.replicate (5000 - k) Phase.idle)).set k Phase.released
      = List.replicate (k + 1) Phase.released ++
        List.replicate (5001 - (k + 1)) Phase.idle := by
    have h0 := set_repl_append k
      (Phase.admitted :: List.replicate (5000 - k) Phase.idle) 0 Phase.released
    rw [Nat.add_zero] at h0
    rw [h0]
    rw [show (5001 - (k + 1)) = 5000 - k from by omega]
    rw [List.replicate_succ' k, List.append_assoc]
    rfl
  have hgetd2 : (List.replicate k Phase.released ++
      (Phase.admitted :: List.replicate (5000 - k) Phase.idle)).getD k Phase.idle
      = Phase.admitted := by
    have h0 := getD_repl_append k
      (Phase.admitted :: List.replicate (5000 - k) Phase.idle) 0 Phase.idle
    rw [Nat.add_zero] at h0
    rw [h0]
    rfl
  have st3 : stepFn
      { gov := { dailyCount := k + 1, dailyResetDate := 0,
                 lastRequestTime := 500 * k + 500, inFlight := true, queue := [] },
        clock := 500 * k + 500,
        procs := List.replicate k Phase.released ++
          (Phase.admitted :: List.replicate (5000 - k) Phase.idle) }
      (Action.rel k) = some (cyclesState (k + 1)) := by
    rw [stepFn_rel_empty _ k ?_ ?_ ?_]
    · simp only [cyclesState]
      rw [hprocs2]
      rw [show 500 * (k + 1) = 500 * k + 500 from by ring]
    · exact allNotRes_append k _ (by simp [Phase.isResumable])
    · exact hgetd2
    · rfl
  exact ((Relation.ReflTransGen.single ⟨_, st1⟩).tail ⟨_, st2⟩).tail ⟨_, st3⟩

theorem reach_cycles : ∀ k, k ≤ 5000 → Reachable (Sys.init 5001 0) (cyclesState k) := by
  intro k
  induction k with
  | zero =>
    intro _
    rw [cyclesState_zero]
    exact Relation.ReflTransGen.refl
  | succ k ih =>
    intro hk
    exact Relation.ReflTransGen.trans (ih (by omega)) (cyclesState_step k (by omega))

/-- Caller 4999 holds the token and sleeps out the spacing delay. -/
def overshootA : Sys :=
  { gov := { dailyCount := 4999, dailyResetDate := 0, lastRequestTime := 2499500,
             inFlight := true, queue := [] },
    clock := 2499500,
    procs := List.replicate 4999 Phase.released ++ [Phase.sleeping 2500000, Phase.idle] }

/-- Caller 5000 has passed the quota check (4999 < 5000) and is enqueued. -/
def overshootB : Sys :=
  { gov := { dailyCount := 4999, dailyResetDate := 0, lastRequestTime := 2499500,
             inFlight := true, queue := [5000] },
    clock := 2499500,
    procs := List.replicate 4999 Phase.released ++ [Phase.sleeping 2500000, Phase.waiting] }

/-- The spacing delay of caller 4999 has elapsed. -/
def overshootC : Sys :=
  { gov := { dailyCount := 4999, dailyResetDate := 0, lastRequestTime := 2499500,
             inFlight := true, queue := [5000] },
    clock := 2500000,
    procs := List.replicate 4999 Phase.released ++ [Phase.sleeping 2500000, Phase.waiting] }

/-- Caller 4999 is admitted; the counter reaches the 5000 cap. -/
def overshootD : Sys :=
  { gov := { dailyCount := 5000, dailyResetDate := 0, lastRequestTime := 2500000,
             inFlight := true, queue := [5000] },
    clock := 2500000,
    procs := List.replicate 4999 Phase.released ++ [Phase.admitted, Phase.waiting] }

/-- Caller 4999 released; caller 5000 was granted the token. -/
def overshootE : Sys :=
  { gov := { dailyCount := 5000, dailyResetDate := 0, lastRequestTime := 2500000,
             inFlight := false, queue := [] },
    clock := 2500000,
    procs := List.replicate 4999 Phase.released ++ [Phase.released, Phase.resumable] }

/-- Caller 5000 resumed (no quota re-check) and sleeps out the spacing delay. -/
def overshootF : Sys :=
  { gov := { dailyCount := 5000, dailyResetDate := 0, lastRequestTime := 2500000,
             inFlight := true, queue := [] },
    clock := 2500000,
    procs := List.replicate 4999 Phase.released ++ [Phase.released, Phase.sleeping 2500500] }

/-- The spacing delay of caller 5000 has elapsed. -/
def overshootG : Sys :=
  { gov := { dailyCount := 5000, dailyResetDate := 0, lastRequestTime := 2500000,
             inFlight := true, queue := [] },
    clock := 2500500,
    procs := List.replicate 4999 Phase.released ++ [Phase.released, Phase.sleeping 2500500] }

/-- Caller 5000 is admitted: the daily counter reads 5001 > 5000. -/
def overshootState : Sys :=
  { gov := { dailyCount := 5001, dailyResetDate := 0, lastRequestTime := 2500500,
             inFlight := true, queue := [] },
    clock := 2500500,
    procs := List.replicate 4999 Phase.released ++ [Phase.released, Phase.admitted] }

theorem reach_overshoot : Reachable (Sys.init 5001 0) overshootState := by
  have hrepl2 : List.replicate (5001 - 4999) Phase.idle = [Phase.idle, Phase.idle] := rfl
  have hget0 : ∀ L : List Phase,
      (List.replicate 4999 Phase.released ++ L).getD 4999 Phase.idle
        = L.getD 0 Phase.idle := by
    intro L
    have h0 := getD_repl_append 4999 L 0 Phase.idle
    rw [Nat.add_zero] at h0
    exact h0
  have hget1 : ∀ L : List Phase,
      (List.replicate 4999 Phase.released ++ L).getD 5000 Phase.idle
        = L.getD 1 Phase.idle := by
    intro L
    have h0 := getD_repl_append 4999 L 1 Phase.idle
    rw [show (4999 : Nat) + 1 = 5000 from rfl] at h0
    exact h0
  have hset0 : ∀ (L : List Phase) (c : Phase),
      (List.replicate 4999 Phase.released ++ L).set 4999 c
        = List.replicate 4999 Phase.released ++ L.set 0 c := by
    intro L c
    have h0 := set_repl_append 4999 L 0 c
    rw [Nat.add_zero] at h0
    exact h0
  have hset1 : ∀ (L : List Phase) (c : Phase),
      (List.replicate 4999 Phase.released ++ L).set 5000 c
        = List.replicate 4999 Phase.released ++ L.set 1 c := by
    intro L c
    have h0 := set_repl_append 4999 L 1 c
    rw [show (4999 : Nat) + 1 = 5000 from rfl] at h0
    exact h0
  have st1 : stepFn (cyclesState 4999) (Action.start 4999) = some overshootA := by
    rw [stepFn_start_sleep _ 4999 ?_ ?_ ?_ ?_ ?_ ?_ ?_ ?_]
    · simp only [cyclesState, overshootA]
      rw [hrepl2, hset0]
      norm_num
    · exact allNotRes_append 4999 _ rfl
    · show (List.replicate 4999 Phase.released ++
        List.replicate (5001 - 4999) Phase.idle).getD 4999 Phase.idle = Phase.idle
      rw [hrepl2, hget0]
      rfl
    · show 4999 < (List.replicate 4999 Phase.released ++
        List.replicate (5001 - 4999) Phase.idle).length
      rw [List.length_append, List.length_replicate, List.length_replicate]
      norm_num
    · rfl
    · show (4999 : Nat) < 5000
      norm_num
    · rfl
    · show (2499500 : Nat) ≤ 2499500
      exact le_refl _
    · show (2499500 : Nat) < 2499500 + 500
      norm_num
  have st2 : stepFn overshootA (Action.start 5000) = some overshootB := by
    rw [stepFn_start_enqueue _ 5000 ?_ ?_ ?_ ?_ ?_ ?_]
    · simp only [overshootA, overshootB]
      rw [hset1]
      rfl
    · exact allNotRes_append 4999 _ rfl
    · show (List.replicate 4999 Phase.released ++
        [Phase.sleeping 2500000, Phase.idle]).getD 5000 Phase.idle = Phase.idle
      rw [hget1]
      rfl
    · show 5000 < (List.replicate 4999 Phase.released ++
        [Phase.sleeping 2500000, Phase.idle]).length
      rw [List.length_append, List.length_replicate]
      norm_num
    · rfl
    · show (4999 : Nat) < 5000
      norm_num
    · rfl
  have st3 : stepFn overshootB (Action.tick 500) = some overshootC := rfl
  have st4 : stepFn overshootC (Action.wake 4999) = some overshootD := by
    rw [stepFn_wake_eq _ 4999 2500000 ?_ ?_ ?_]
    · simp only [overshootC, overshootD, finishAdmission]
      rw [hset0]
      rfl
    · show (List.replicate 4999 Phase.released ++
        [Phase.sleeping 2500000, Phase.waiting]).getD 4999 Phase.idle
        = Phase.sleeping 2500000
      rw [hget0]
      rfl
    · exact allNotRes_append 4999 _ rfl
    · show (2500000 : Nat) ≤ 2500000
      exact le_refl _
  have st5 : stepFn overshootD (Action.rel 4999) = some overshootE := by
    rw [stepFn_rel_grant _ 4999 5000 [] ?_ ?_ ?_]
    · simp only [overshootD, overshootE]
      rw [hset0, hset1]
      rfl
    · exact allNotRes_append 4999 _ rfl
    · show (List.replicate 4999 Phase.released ++
        [Phase.admitted, Phase.waiting]).getD 4999 Phase.idle = Phase.admitted
      rw [hget0]
      rfl
    · rfl
  have st6 : stepFn overshootE (Action.resume 5000) = some overshootF := by
    rw [stepFn_resume_sleep _ 5000 ?_ ?_ ?_]
    · simp only [overshootE, overshootF]
      rw [hset1]
      norm_num
    · show (List.replicate 4999 Phase.released ++
        [Phase.released, Phase.resumable]).getD 5000 Phase.idle = Phase.resumable
      rw [hget1]
      rfl
    · show (2500000 : Nat) ≤ 2500000
      exact le_refl _
    · show (2500000 : Nat) < 2500000 + 500
      norm_num
  have st7 : stepFn overshootF (Action.tick 500) = some overshootG := rfl
  have st8 : stepFn overshootG (Action.wake 5000) = some overshootState := by
    rw [stepFn_wake_eq _ 5000 2500500 ?_ ?_ ?_]
    · simp only [overshootG, overshootState, finishAdmission]
      rw [hset1]
      rfl
    · show (List.replicate 4999 Phase.released ++
        [Phase.released, Phase.sleeping 2500500]).getD 5000 Phase.idle
        = Phase.sleeping 2500500
      rw [hget1]
      rfl
    · exact allNotRes_append 4999 _ rfl
    · show (2500500 : Nat) ≤ 2500500
      exact le_refl _
  exact ((((((((reach_cycles 4999 (by norm_num)).tail ⟨_, st1⟩).tail
    ⟨_, st2⟩).tail ⟨_, st3⟩).tail ⟨_, st4⟩).tail ⟨_, st5⟩).tail
    ⟨_, st6⟩).tail ⟨_, st7⟩).tail ⟨_, st8⟩

/-! ## The claims -/

/-- A test state: quota exhausted, token free, one caller yet to start. -/
def cappedState : Sys :=
  { gov := { dailyCount := 5000, dailyResetDate := 0, lastRequestTime := 0,
             inFlight := false, queue := [] },
    clock := 0,
    procs := [Phase.idle] }

/-- A test state: quota exhausted on day 0, observed on day 1. -/
def cappedStateNewDay : Sys :=
  { gov := { dailyCount := 5000, dailyResetDate := 0, lastRequestTime := 0,
             inFlight := false, queue := [] },
    clock := 86400600,
    procs := [Phase.idle] }

/-- C4: whenever `acquireSlot` runs with the (post-reset) counter at or above
5000, the caller fails immediately and the governor state is completely
unchanged — no enqueue, no token take-over, no timestamp update, no counter
increment — and `canliiRequest` forwards such an acquire failure without
performing any fetch and without calling `releaseSlot`. -/
theorem spec_C4_quota_atomicity (s : Sys) (i : Nat)
    (hcount : 5000 ≤ (resetDailyIfNeeded s.gov s.clock).dailyCount)
    (hnr : s.noResumable = true)
    (hph : s.phase i = Phase.idle)
    (hlen : i < s.procs.length) :
    stepFn s (Action.start i) =
      some { s with procs := s.procs.set i Phase.failed }
    ∧ (∀ net : NetOutcome,
        canliiRequest (Except.error quotaMessage) net =
          { result := Except.error quotaMessage, fetches := 0, releases := 0 }) := by
  have hid : resetDailyIfNeeded s.gov s.clock = s.gov := by
    by_cases hd : dayKey s.clock ≠ s.gov.dailyResetDate
    · exfalso
      unfold resetDailyIfNeeded at hcount
      rw [if_pos hd] at hcount
      have h0 : (5000 : Nat) ≤ 0 := hcount
      omega
    · unfold resetDailyIfNeeded
      rw [if_neg hd]
  constructor
  · simp only [stepFn]
    rw [if_pos ⟨hnr, hph, hlen⟩, hid, if_pos (by rw [hid] at hcount; exact hcount)]
  · intro net
    rfl

theorem spec_C4_quota_atomicity_witness :
    5000 ≤ (resetDailyIfNeeded cappedState.gov cappedState.clock).dailyCount
    ∧ (stepFn cappedState (Action.start 0) =
        some { cappedState with procs := cappedState.procs.set 0 Phase.failed }
      ∧ (∀ net : NetOutcome,
          canliiRequest (Except.error quotaMessage) net =
            { result := Except.error quotaMessage, fetches := 0, releases := 0 })) :=
  ⟨by decide,
   spec_C4_quota_atomicity cappedState 0 (by decide) (by decide) (by decide) (by decide)⟩

/-- C5: for every invocation of `canliiRequest` in which `acquireSlot`
succeeded, `releaseSlot` runs exactly once — whether the fetch returns a
2xx response, returns a non-success status, or throws a transport error —
and exactly one fetch is performed. -/
theorem spec_C5_unconditional_release (net : NetOutcome) :
    (canliiRequest (Except.ok ()) net).releases = 1
    ∧ (canliiRequest (Except.ok ()) net).fetches = 1 := by
  cases net with
  | response status body =>
    constructor <;> · simp only [canliiRequest]; split <;> rfl
  | transportError msg => exact ⟨rfl, rfl⟩

/-- C7: when the calendar day key differs from the stored reset key, the
counter is reset (and the key updated) before the quota check, so a fresh
`acquireSlot` with a free token succeeds regardless of the old counter value
— in particular right after a capped epoch — and leaves the counter at
exactly 1. -/
theorem spec_C7_epoch_rollover (s : Sys) (i : Nat)
    (hnr : s.noResumable = true)
    (hph : s.phase i = Phase.idle)
    (hlen : i < s.procs.length)
    (hday : dayKey s.clock ≠ s.gov.dailyResetDate)
    (hfl : s.gov.inFlight = false)
    (hsp : s.gov.lastRequestTime + 500 ≤ s.clock) :
    ∃ s2, stepFn s (Action.start i) = some s2
      ∧ s2.gov.dailyCount = 1
      ∧ s2.gov.dailyResetDate = dayKey s.clock
      ∧ s2.gov.lastRequestTime = s.clock
      ∧ s2.phase i = Phase.admitted := by
  have hreset : resetDailyIfNeeded s.gov s.clock =
      { s.gov with dailyCount := 0, dailyResetDate := dayKey s.clock } := by
    unfold resetDailyIfNeeded
    rw [if_pos hday]
  refine ⟨{ s with
            gov := { s.gov with
                     dailyCount := 1,
                     dailyResetDate := dayKey s.clock,
                     lastRequestTime := s.clock,
                     inFlight := true },
            procs := s.procs.set i Phase.admitted }, ?_, rfl, rfl, rfl, ?_⟩
  · simp only [stepFn]
    rw [if_pos ⟨hnr, hph, hlen⟩, hreset, if_neg (by simp), if_neg (by simp [hfl]),
      takeToken_eq]
    have hsw : spacingWait
        { s.gov with dailyCount := 0, dailyResetDate := dayKey s.clock } s.clock = 0 :=
      spacingWait_eq_zero _ _ hsp
    rw [hsw, if_neg (by norm_num)]
  · show (s.procs.set i Phase.admitted).getD i Phase.idle = Phase.admitted
    rw [getD_set, if_pos ⟨rfl, hlen⟩]

theorem spec_C7_epoch_rollover_witness :
    (cappedStateNewDay.noResumable = true
      ∧ dayKey cappedStateNewDay.clock ≠ cappedStateNewDay.gov.dailyResetDate
      ∧ cappedStateNewDay.gov.lastRequestTime + 500 ≤ cappedStateNewDay.clock)
    ∧ ∃ s2, stepFn cappedStateNewDay (Action.start 0) = some s2
      ∧ s2.gov.dailyCount = 1
      ∧ s2.gov.dailyResetDate = dayKey cappedStateNewDay.clock
      ∧ s2.gov.lastRequestTime = cappedStateNewDay.clock
      ∧ s2.phase 0 = Phase.admitted :=
  ⟨⟨by decide, by decide, by decide⟩,
   spec_C7_epoch_rollover cappedStateNewDay 0 (by decide) (by decide) (by decide)
     (by decide) (by decide) (by decide)⟩

/-- C8: a completed fetch with a non-2xx status yields a failure whose
message is exactly the status code and the response body interpolated into
the `CanLII API {status}: {body}` template (hence contains both verbatim);
a transport error yields a failure carrying that error's message; a 2xx
response yields the payload forwarded unchanged.  `releaseSlot` and the
fetch each run once in all three cases. -/
theorem spec_C8_failure_mapping (st : Nat) (body msg : String) :
    (statusOk st = false →
      canliiRequest (Except.ok ()) (NetOutcome.response st body)
        = { result := Except.error ("CanLII API " ++ toString st ++ ": " ++ body),
            fetches := 1, releases := 1 })
    ∧ canliiRequest (Except.ok ()) (NetOutcome.transportError msg)
        = { result := Except.error msg, fetches := 1, releases := 1 }
    ∧ (statusOk st = true →
      canliiRequest (Except.ok ()) (NetOutcome.response st body)
        = { result := Except.ok body, fetches := 1, releases := 1 }) := by
  refine ⟨?_, rfl, ?_⟩
  · intro h
    simp only [canliiRequest]
    rw [if_neg (by rw [h]; simp)]
  · intro h
    simp only [canliiRequest]
    rw [if_pos h]

theorem spec_C8_failure_mapping_witness :
    statusOk 404 = false
    ∧ canliiRequest (Except.ok ()) (NetOutcome.response 404 "not found")
        = { result := Except.error ("CanLII API " ++ toString 404 ++ ": " ++ "not found"),
            fetches := 1, releases := 1 }
    ∧ canliiRequest (Except.ok ()) (NetOutcome.transportError "boom")
        = { result := Except.error "boom", fetches := 1, releases := 1 }
    ∧ statusOk 200 = true
    ∧ canliiRequest (Except.ok ()) (NetOutcome.response 200 "payload")
        = { result := Except.ok "payload", fetches := 1, releases := 1 } :=
  ⟨by decide, (spec_C8_failure_mapping 404 "not found" "boom").1 (by decide),
   (spec_C8_failure_mapping 404 "not found" "boom").2.1,
   by decide, (spec_C8_failure_mapping 200 "payload" "boom").2.2 (by decide)⟩

/-- C9: with a caller parameter record of distinct keys, the outbound query
carries exactly those caller entries whose value is neither undefined nor
the empty string (with their given values), and always carries an `api_key`
parameter. -/
theorem spec_C9_param_filtering (apiKey : String)
    (params : List (String × Option String))
    (hnd : (params.map Prod.fst).Nodup) :
    (∃ v, getParam (buildSearchParams apiKey params) "api_key" = some v)
    ∧ (∀ k, k ≠ "api_key" →
        getParam (buildSearchParams apiKey params) k =
          match findParam params k with
          | some (some v) => if v ≠ "" then some v else none
          | _ => none) := by
  have hbase : ∀ k2, getParam (setParam [] "api_key" apiKey) k2
      = if "api_key" = k2 then some apiKey else none := by
    intro k2
    rfl
  constructor
  · unfold buildSearchParams
    rw [getParam_foldl params _ "api_key" hnd]
    cases hf : findParam params "api_key" with
    | none =>
      refine ⟨apiKey, ?_⟩
      rw [hbase, if_pos rfl]
    | some v0 =>
      cases v0 with
      | none =>
        refine ⟨apiKey, ?_⟩
        rw [hbase, if_pos rfl]
      | some v =>
        by_cases hv : v = ""
        · refine ⟨apiKey, ?_⟩
          show (if v ≠ "" then some v
            else getParam (setParam [] "api_key" apiKey) "api_key") = some apiKey
          rw [if_neg (by simp [hv]), hbase, if_pos rfl]
        · refine ⟨v, ?_⟩
          show (if v ≠ "" then some v
            else getParam (setParam [] "api_key" apiKey) "api_key") = some v
          rw [if_pos hv]
  · intro k hk
    unfold buildSearchParams
    rw [getParam_foldl params _ k hnd]
    have hnone : getParam (setParam [] "api_key" apiKey) k = none := by
      rw [hbase, if_neg (fun he => hk he.symm)]
    cases hf : findParam params k with
    | none => exact hnone
    | some v0 =>
      cases v0 with
      | none => exact hnone
      | some v =>
        show (if v ≠ "" then some v else getParam (setParam [] "api_key" apiKey) k)
          = (if v ≠ "" then some v else none)
        by_cases hv : v = ""
        · rw [if_neg (by simp [hv]), if_neg (by simp [hv])]
          exact hnone
        · rw [if_pos hv, if_pos hv]

theorem spec_C9_param_filtering_witness :
    ((([("offset", some "0"), ("resultCount", some ""), ("publishedBefore", none)] :
        List (String × Option String)).map Prod.fst).Nodup)
    ∧ ((∃ v, getParam (buildSearchParams "KEY"
        [("offset", some "0"), ("resultCount", some ""), ("publishedBefore", none)])
        "api_key" = some v)
      ∧ (∀ k, k ≠ "api_key" →
          getParam (buildSearchParams "KEY"
            [("offset", some "0"), ("resultCount", some ""), ("publishedBefore", none)]) k =
            match findParam [("offset", some "0"), ("resultCount", some ""),
              ("publishedBefore", none)] k with
            | some (some v) => if v ≠ "" then some v else none
            | _ => none)) :=
  ⟨by decide,
   spec_C9_param_filtering "KEY"
     [("offset", some "0"), ("resultCount", some ""), ("publishedBefore", none)]
     (by decide)⟩

/-- C10 (implicit): a caller parameter named `api_key` with a non-empty
value overrides the configured API key: the outbound `api_key` query
parameter carries the caller's value, because caller parameters are applied
after the configured key with replace semantics. -/
theorem spec_C10_api_key_override (apiKey v : String)
    (params : List (String × Option String))
    (hnd : (params.map Prod.fst).Nodup)
    (hv : findParam params "api_key" = some (some v))
    (hne : v ≠ "") :
    getParam (buildSearchParams apiKey params) "api_key" = some v := by
  unfold buildSearchParams
  rw [getParam_foldl params _ "api_key" hnd, hv]
  show (if v ≠ "" then some v
    else getParam (setParam [] "api_key" apiKey) "api_key") = some v
  rw [if_pos hne]

theorem spec_C10_api_key_override_witness :
    ((([("api_key", some "OVERRIDE")] : List (String × Option String)).map
        Prod.fst).Nodup)
    ∧ findParam [("api_key", some "OVERRIDE")] "api_key" = some (some "OVERRIDE")
    ∧ ("OVERRIDE" : String) ≠ ""
    ∧ getParam (buildSearchParams "KEY" [("api_key", some "OVERRIDE")]) "api_key"
        = some "OVERRIDE" :=
  ⟨by decide, by decide, by decide,
   spec_C10_api_key_override "KEY" "OVERRIDE" [("api_key", some "OVERRIDE")]
     (by decide) (by decide) (by decide)⟩

/-- C1: mutual exclusion of the concurrency token — in every reachable
state at most one caller holds the token; counting also a waiter that was
granted the token by `releaseSlot` but has not yet resumed (the
release-to-resume window), there is still at most one caller holding or
about to hold it; and the `inFlight` flag is set exactly when some caller
holds the token, so it is set on admission and cleared only by the holder's
release. -/
theorem spec_C1_mutual_exclusion (n t0 : Nat) (s : Sys)
    (hs : Reachable (Sys.init n t0) s) :
    (∀ i j, (s.phase i).isHolder = true → (s.phase j).isHolder = true → i = j)
    ∧ (∀ i j, (s.phase i).isHolderOrResumable = true →
        (s.phase j).isHolderOrResumable = true → i = j)
    ∧ (s.gov.inFlight = true ↔ ∃ i, (s.phase i).isHolder = true) := by
  have hInv := inv_reachable n t0 s hs
  refine ⟨?_, hInv.excl, hInv.flag⟩
  intro i j hi hj
  exact hInv.excl i j (by rw [isHOR_iff]; left; exact hi)
    (by rw [isHOR_iff]; left; exact hj)

theorem spec_C1_mutual_exclusion_witness :
    (∀ i j, ((Sys.init 2 0).phase i).isHolder = true →
      ((Sys.init 2 0).phase j).isHolder = true → i = j)
    ∧ (∀ i j, ((Sys.init 2 0).phase i).isHolderOrResumable = true →
        ((Sys.init 2 0).phase j).isHolderOrResumable = true → i = j)
    ∧ ((Sys.init 2 0).gov.inFlight = true ↔
        ∃ i, ((Sys.init 2 0).phase i).isHolder = true) :=
  spec_C1_mutual_exclusion 2 0 (Sys.init 2 0) Relation.ReflTransGen.refl

/-- C3 counterexample: the daily-cap claim `dailyCount ≤ 5000 in every
reachable state` is false — the state `overshootState` with counter 5001 is
reachable from the initial state (4999 spaced admissions, then two callers
pass the quota check before either increments the counter, and the queued
one is granted without a re-check). -/
theorem spec_C3_daily_cap_counterexample :
    Reachable (Sys.init 5001 0) overshootState
    ∧ overshootState.gov.dailyCount = 5001 :=
  ⟨reach_overshoot, rfl⟩

/-- C3 amended: a fresh `acquireSlot` call (the `start` step, which runs
the quota check) never pushes the counter above 5000: if the post-reset
counter is at most 5000 before the call, it is still at most 5000
afterwards.  The cap can be exceeded only by callers that passed the quota
check earlier and complete their admission later (from the wait queue or
the spacing sleep) without any re-check, as the counterexample shows. -/
theorem spec_C3_daily_cap_amended (s : Sys) (i : Nat) (s2 : Sys)
    (hcount : (resetDailyIfNeeded s.gov s.clock).dailyCount ≤ 5000)
    (h : stepFn s (Action.start i) = some s2) :
    s2.gov.dailyCount ≤ 5000 := by
  simp only [stepFn] at h
  split at h
  case isFalse => cases h
  case isTrue hc =>
    split at h
    case isTrue hq =>
      simp only [Option.some.injEq] at h
      subst h
      exact hcount
    case isFalse hq =>
      have hlt : (resetDailyIfNeeded s.gov s.clock).dailyCount < 5000 := by omega
      split at h
      case isTrue hf =>
        simp only [Option.some.injEq] at h
        subst h
        show (resetDailyIfNeeded s.gov s.clock).dailyCount ≤ 5000
        omega
      case isFalse hf =>
        simp only [Option.some.injEq] at h
        subst h
        rw [takeToken_eq]
        split
        · show (resetDailyIfNeeded s.gov s.clock).dailyCount ≤ 5000
          omega
        · show (resetDailyIfNeeded s.gov s.clock).dailyCount + 1 ≤ 5000
          omega

theorem spec_C3_daily_cap_amended_witness :
    (resetDailyIfNeeded (Sys.init 1 600).gov (Sys.init 1 600).clock).dailyCount ≤ 5000
    ∧ stepFn (Sys.init 1 600) (Action.start 0) =
        some { gov := { dailyCount := 1, dailyResetDate := 0, lastRequestTime := 600,
                        inFlight := true, queue := [] },
               clock := 600, procs := [Phase.admitted] }
    ∧ ({ gov := { dailyCount := 1, dailyResetDate := 0, lastRequestTime := 600,
                  inFlight := true, queue := [] },
         clock := 600, procs := [Phase.admitted] } : Sys).gov.dailyCount ≤ 5000 :=
  ⟨by decide, by decide,
   spec_C3_daily_cap_amended (Sys.init 1 600) 0 _ (by decide) (by decide)⟩

theorem spacingWait_reset (g : Gov) (t now : Nat) :
    spacingWait (resetDailyIfNeeded g t) now = spacingWait g now := by
  unfold spacingWait
  rw [reset_last]

theorem takeToken_last (s : Sys) (i : Nat)
    (hlast : s.gov.lastRequestTime ≤ s.clock) :
    (takeToken s i).gov.lastRequestTime = s.gov.lastRequestTime ∨
    ((takeToken s i).gov.lastRequestTime = s.clock ∧
      s.gov.lastRequestTime + 500 ≤ s.clock) := by
  rw [takeToken_eq]
  rcases spacingWait_spec s.gov s.clock hlast with ⟨h0, hge⟩ | ⟨hpos, heq⟩
  · rw [if_neg (by omega)]
    exact Or.inr ⟨rfl, hge⟩
  · rw [if_pos hpos]
    exact Or.inl rfl

/-- C2: strict FIFO admission.  In every reachable state: (1) `releaseSlot`
always grants the head of the wait queue (it becomes the resolved waiter and
the rest of the queue remains, in order); (2) a fresh `acquireSlot` call
that arrives while the token is held is appended at the tail of the queue,
behind every already-queued caller; (3) while any granted waiter has not yet
resumed, the only step that can create a new token holder is that waiter's
own resumption — no fresh or queued caller is admitted ahead of it; and
(4) the token is never free while the queue is non-empty unless a granted
waiter is about to take it, so a fresh caller can never bypass a non-empty
queue. -/
theorem spec_C2_fifo (n t0 : Nat) (s : Sys)
    (hs : Reachable (Sys.init n t0) s) :
    (∀ i j rest s2, s.gov.queue = j :: rest →
       stepFn s (Action.rel i) = some s2 →
       s2.phase j = Phase.resumable ∧ s2.gov.queue = rest)
    ∧ (∀ i s2, s.gov.inFlight = true →
        (resetDailyIfNeeded s.gov s.clock).dailyCount < 5000 →
        stepFn s (Action.start i) = some s2 →
        s2.gov.queue = s.gov.queue ++ [i] ∧ s2.phase i = Phase.waiting)
    ∧ (s.gov.inFlight = false → (∀ j, s.phase j ≠ Phase.resumable) →
        s.gov.queue = [])
    ∧ (∀ j, s.phase j = Phase.resumable →
        ∀ a s2, stepFn s a = some s2 →
        ∀ k, (s.phase k).isHolder = false → (s2.phase k).isHolder = true →
        k = j ∧ a = Action.resume j) := by
  have hInv := inv_reachable n t0 s hs
  refine ⟨?_, ?_, ?_, ?_⟩
  · intro i j rest s2 hq h
    simp only [stepFn] at h
    split at h
    case isFalse => cases h
    case isTrue hc =>
      simp only [releaseSlot, hq] at h
      simp only [Option.some.injEq] at h
      subst h
      have hjw : s.phase j = Phase.waiting :=
        hInv.queue_mem j (by rw [hq]; exact List.mem_cons_self _ _)
      have hjlen : j < s.procs.length := phase_lt_length s j (by rw [hjw]; simp)
      constructor
      · show ((s.procs.set i Phase.released).set j Phase.resumable).getD j Phase.idle
          = Phase.resumable
        rw [getD_set, if_pos ⟨rfl, by rw [List.length_set]; exact hjlen⟩]
      · rfl
  · intro i s2 hfl hcount h
    simp only [stepFn] at h
    split at h
    case isFalse => cases h
    case isTrue hc =>
      obtain ⟨hnr, hidle, hlen⟩ := hc
      split at h
      case isTrue hq => omega
      case isFalse hq =>
        split at h
        case isTrue hf =>
          simp only [Option.some.injEq] at h
          subst h
          constructor
          · show (resetDailyIfNeeded s.gov s.clock).queue ++ [i] = s.gov.queue ++ [i]
            rw [reset_queue]
          · show (s.procs.set i Phase.waiting).getD i Phase.idle = Phase.waiting
            rw [getD_set, if_pos ⟨rfl, hlen⟩]
        case isFalse hf =>
          rw [reset_inFlight] at hf
          exact absurd hfl hf
  · intro hfl hnores
    by_contra hne
    rcases hInv.queue_flag hne with h1 | ⟨j, hj⟩
    · rw [hfl] at h1
      cases h1
    · exact hnores j hj
  · intro j hj a s2 h k hk1 hk2
    have hnrF : s.noResumable ≠ true := by
      intro hx
      exact (noResumable_iff s).mp hx j hj
    cases a with
    | start i2 =>
      simp only [stepFn] at h
      split at h
      case isTrue hc => exact absurd hc.1 hnrF
      case isFalse => cases h
    | wake i2 =>
      simp only [stepFn] at h
      split at h
      case _ w heq =>
        split at h
        case isTrue hcc => exact absurd hcc.1 hnrF
        case isFalse => cases h
      case _ => cases h
    | rel i2 =>
      simp only [stepFn] at h
      split at h
      case isTrue hc => exact absurd hc.1 hnrF
      case isFalse => cases h
    | tick d =>
      simp only [stepFn, Option.some.injEq] at h
      subst h
      have hk2' : (s.phase k).isHolder = true := hk2
      rw [hk1] at hk2'
      exact absurd hk2' Bool.false_ne_true
    | resume i2 =>
      simp only [stepFn] at h
      split at h
      case isFalse => cases h
      case isTrue hres =>
        simp only [Option.some.injEq] at h
        subst h
        have hij : i2 = j := hInv.excl i2 j
          (by rw [isHOR_iff, isResumable_iff]; right; exact hres)
          (by rw [isHOR_iff, isResumable_iff]; right; exact hj)
        have hknew : k = i2 := by
          by_contra hki
          have hk2' : ((takeToken s i2).phase k).isHolder = true := hk2
          rw [takeToken_eq] at hk2'
          split at hk2'
          · have hk3 : ((s.procs.set i2
                (Phase.sleeping (s.clock + spacingWait s.gov s.clock))).getD k
                Phase.idle).isHolder = true := hk2'
            rw [getD_set, if_neg (fun hcon => hki hcon.1.symm)] at hk3
            have hk4 : (s.phase k).isHolder = true := hk3
            rw [hk1] at hk4
            exact absurd hk4 Bool.false_ne_true
          · have hk3 : ((s.procs.set i2 Phase.admitted).getD k
                Phase.idle).isHolder = true := hk2'
            rw [getD_set, if_neg (fun hcon => hki hcon.1.symm)] at hk3
            have hk4 : (s.phase k).isHolder = true := hk3
            rw [hk1] at hk4
            exact absurd hk4 Bool.false_ne_true
        exact ⟨hknew.trans hij, by rw [hij]⟩

/-- C6: inter-request spacing.  Along every reachable step, the admission
timestamp `lastRequestTime` either is unchanged or is set to the current
clock at a moment at least 500 ms after the previous value — so consecutive
admission timestamps are at least 500 ms apart; moreover a caller that took
the token and suspended in the spacing sleep is admitted (reaches the
`admitted` phase, recording its timestamp) only once the clock is at least
500 ms past the previous admission timestamp. -/
theorem spec_C6_spacing (n t0 : Nat) (s : Sys) (a : Action) (s2 : Sys)
    (hs : Reachable (Sys.init n t0) s)
    (h : stepFn s a = some s2) :
    (s2.gov.lastRequestTime = s.gov.lastRequestTime ∨
      (s2.gov.lastRequestTime = s.clock ∧ s.gov.lastRequestTime + 500 ≤ s.clock))
    ∧ (∀ i w, s.phase i = Phase.sleeping w → s2.phase i = Phase.admitted →
        s.gov.lastRequestTime + 500 ≤ s.clock) := by
  have hInv := inv_reachable n t0 s hs
  cases a with
  | start i =>
    simp only [stepFn] at h
    split at h
    case isFalse => cases h
    case isTrue hc =>
      obtain ⟨hnr, hidle, hlen⟩ := hc
      split at h
      case isTrue hq =>
        simp only [Option.some.injEq] at h
        subst h
        refine ⟨Or.inl (reset_last _ _), ?_⟩
        intro i2 w hsl hadm
        exfalso
        have hadm2 : (s.procs.set i Phase.failed).getD i2 Phase.idle
            = Phase.admitted := hadm
        rw [getD_set] at hadm2
        split at hadm2
        · cases hadm2
        · have hadm3 : s.phase i2 = Phase.admitted := hadm2
          rw [hsl] at hadm3
          cases hadm3
      case isFalse hq =>
        split at h
        case isTrue hf =>
          simp only [Option.some.injEq] at h
          subst h
          refine ⟨Or.inl (reset_last _ _), ?_⟩
          intro i2 w hsl hadm
          exfalso
          have hadm2 : (s.procs.set i Phase.waiting).getD i2 Phase.idle
              = Phase.admitted := hadm
          rw [getD_set] at hadm2
          split at hadm2
          · cases hadm2
          · have hadm3 : s.phase i2 = Phase.admitted := hadm2
            rw [hsl] at hadm3
            cases hadm3
        case isFalse hf =>
          simp only [Option.some.injEq] at h
          subst h
          have hnosleep : ∀ i2 w, ¬ s.phase i2 = Phase.sleeping w := by
            intro i2 w hsl
            have hflag : s.gov.inFlight = true :=
              hInv.flag.mpr ⟨i2, by rw [hsl]; simp [Phase.isHolder]⟩
            rw [reset_inFlight] at hf
            exact hf hflag
          refine ⟨?_, fun i2 w hsl _ => absurd hsl (hnosleep i2 w)⟩
          have hx : ({ s with gov := resetDailyIfNeeded s.gov s.clock } :
              Sys).gov.lastRequestTime ≤
              ({ s with gov := resetDailyIfNeeded s.gov s.clock } : Sys).clock := by
            show (resetDailyIfNeeded s.gov s.clock).lastRequestTime ≤ s.clock
            rw [reset_last]
            exact hInv.last_le_clock
          rcases takeToken_last { s with gov := resetDailyIfNeeded s.gov s.clock } i hx
            with h1 | ⟨h1, h2⟩
          · exact Or.inl (h1.trans (reset_last s.gov s.clock))
          · refine Or.inr ⟨h1, ?_⟩
            have h2b : (resetDailyIfNeeded s.gov s.clock).lastRequestTime + 500
                ≤ s.clock := h2
            rw [reset_last] at h2b
            exact h2b
  | resume i =>
    simp only [stepFn] at h
    split at h
    case isFalse => cases h
    case isTrue hres =>
      simp only [Option.some.injEq] at h
      subst h
      have hnosleep : ∀ i2 w, ¬ s.phase i2 = Phase.sleeping w := by
        intro i2 w hsl
        have h1 : i2 = i := hInv.excl i2 i
          (by rw [isHOR_iff, isHolder_iff]; left; right; exact ⟨w, hsl⟩)
          (by rw [isHOR_iff, isResumable_iff]; right; exact hres)
        rw [h1, hres] at hsl
        cases hsl
      exact ⟨takeToken_last s i hInv.last_le_clock,
        fun i2 w hsl _ => absurd hsl (hnosleep i2 w)⟩
  | wake i =>
    simp only [stepFn] at h
    split at h
    case _ w heq =>
      split at h
      case isTrue hcc =>
        simp only [Option.some.injEq] at h
        subst h
        have hb : s.gov.lastRequestTime + 500 ≤ s.clock :=
          le_trans (hInv.sleep_wake i w heq) hcc.2
        exact ⟨Or.inr ⟨rfl, hb⟩, fun _ _ _ _ => hb⟩
      case isFalse => cases h
    case _ => cases h
  | rel i =>
    simp only [stepFn] at h
    split at h
    case isFalse => cases h
    case isTrue hc =>
      obtain ⟨hnr, hadm⟩ := hc
      have hnosleep : ∀ i2 w, ¬ s.phase i2 = Phase.sleeping w := by
        intro i2 w hsl
        have h1 : i2 = i := hInv.excl i2 i
          (by rw [isHOR_iff, isHolder_iff]; left; right; exact ⟨w, hsl⟩)
          (by rw [isHOR_iff, isHolder_iff, hadm]; left; left; rfl)
        rw [h1, hadm] at hsl
        cases hsl
      rcases hq : s.gov.queue with _ | ⟨j, rest⟩
      · simp only [releaseSlot, hq] at h
        simp only [Option.some.injEq] at h
        subst h
        exact ⟨Or.inl rfl, fun i2 w hsl _ => absurd hsl (hnosleep i2 w)⟩
      · simp only [releaseSlot, hq] at h
        simp only [Option.some.injEq] at h
        subst h
        exact ⟨Or.inl rfl, fun i2 w hsl _ => absurd hsl (hnosleep i2 w)⟩
  | tick d =>
    simp only [stepFn, Option.some.injEq] at h
    subst h
    refine ⟨Or.inl rfl, ?_⟩
    intro i2 w hsl hadm
    exfalso
    have hadm2 : s.phase i2 = Phase.admitted := hadm
    rw [hsl] at hadm2
    cases hadm2

/-- A test state: the single caller of a fresh two-caller system admitted
directly at clock 600. -/
def admitted600 : Sys :=
  { gov := { dailyCount := 1, dailyResetDate := 0, lastRequestTime := 600,
             inFlight := true, queue := [] },
    clock := 600,
    procs := [Phase.admitted] }

theorem spec_C2_fifo_witness :
    (∀ i j rest s2, (Sys.init 2 0).gov.queue = j :: rest →
       stepFn (Sys.init 2 0) (Action.rel i) = some s2 →
       s2.phase j = Phase.resumable ∧ s2.gov.queue = rest)
    ∧ (∀ i s2, (Sys.init 2 0).gov.inFlight = true →
        (resetDailyIfNeeded (Sys.init 2 0).gov (Sys.init 2 0).clock).dailyCount < 5000 →
        stepFn (Sys.init 2 0) (Action.start i) = some s2 →
        s2.gov.queue = (Sys.init 2 0).gov.queue ++ [i] ∧ s2.phase i = Phase.waiting)
    ∧ ((Sys.init 2 0).gov.inFlight = false →
        (∀ j, (Sys.init 2 0).phase j ≠ Phase.resumable) →
        (Sys.init 2 0).gov.queue = [])
    ∧ (∀ j, (Sys.init 2 0).phase j = Phase.resumable →
        ∀ a s2, stepFn (Sys.init 2 0) a = some s2 →
        ∀ k, ((Sys.init 2 0).phase k).isHolder = false →
        (s2.phase k).isHolder = true →
        k = j ∧ a = Action.resume j) :=
  spec_C2_fifo 2 0 (Sys.init 2 0) Relation.ReflTransGen.refl

theorem spec_C6_spacing_witness :
    stepFn (Sys.init 1 600) (Action.start 0) = some admitted600
    ∧ ((admitted600.gov.lastRequestTime = (Sys.init 1 600).gov.lastRequestTime ∨
        (admitted600.gov.lastRequestTime = (Sys.init 1 600).clock
          ∧ (Sys.init 1 600).gov.lastRequestTime + 500 ≤ (Sys.init 1 600).clock))
      ∧ (∀ i w, (Sys.init 1 600).phase i = Phase.sleeping w →
          admitted600.phase i = Phase.admitted →
          (Sys.init 1 600).gov.lastRequestTime + 500 ≤ (Sys.init 1 600).clock)) :=
  ⟨by decide,
   spec_C6_spacing 1 600 (Sys.init 1 600) (Action.start 0) admitted600
     Relation.ReflTransGen.refl (by decide)⟩

end CanLII
